import Mathlib

/-!
Verification of the process-orchestration / test-runner layer of
`debug/testlib.py` (riscv-tests debug harness).

The Python source is shallowly embedded: each modelled function is a Lean
function over explicit state, Python exceptions become an `Exc` value
threaded through `Except` / `Option Exc` results, and the behaviour of the
external processes (gdb responses, simulator logs, test bodies) is supplied
as explicit parameters, since the source reads it from the outside world.
-/

/-- Exceptions of the harness.  `testFailed` / `testNotApplicable` embed the
classes `TestFailed` / `TestNotApplicable`; `cannotAccess` embeds
`CannotAccess` (carrying the faulting address); `osError`,
`attributeError`, `valueError`, `indexError` embed the built-in Python
exceptions raised by the library calls the source uses; `other` is any
other `Exception` subclass. -/
inductive Exc where
  | testFailed (message : String)
  | testNotApplicable (message : String)
  | cannotAccess (address : Nat)
  | osError
  | attributeError
  | valueError
  | indexError
  | other (message : String)
deriving DecidableEq, Repr

namespace BaseTest

/-- Outcome of the body of the `try:` block in `BaseTest.run`: either
`test()` returned a value (`ret none` models a falsy return such as `None`,
`ret (some v)` a truthy return value `v`), or an exception was raised. -/
inductive BodyOutcome where
  | ret (v : Option String)
  | exc (e : Exc)
deriving DecidableEq, Repr

/-- The environment a single `BaseTest.run` executes in: whether
`early_applicable()` returned a truthy value, whether `classSetup()` or
`setup()` raise, what `test()` does, and whether `postMortem()` raises
(its exception is caught and only printed). -/
structure RunEnv where
  earlyApplicable : Bool
  classSetupExc : Option Exc
  setupExc : Option Exc
  body : BodyOutcome
  postMortemExc : Option Exc
deriving DecidableEq, Repr

/-- What `BaseTest.run` produced: the result string it returned, and
whether the `finally:` block (which calls `classTeardown`) and the
`postMortem()` call were executed. -/
structure RunResult where
  result : String
  teardownRan : Bool
  postMortemRan : Bool
deriving DecidableEq, Repr

/-- Outcome of the whole `try:` body of `BaseTest.run`: `classSetup()`,
then `setup()`, then `result = self.test()`.  The first phase that raises
aborts the block with that exception. -/
def tryBlockOutcome (env : RunEnv) : BodyOutcome :=
  match env.classSetupExc with
  | some e => .exc e
  | none =>
    match env.setupExc with
    | some e => .exc e
    | none => env.body

/-- Embedding of `BaseTest.run` (testlib.py lines 718-767).  If
`early_applicable()` is falsy it returns "not_applicable" before the
`try:` block, so no teardown runs.  Otherwise: `except TestNotApplicable`
sets result to "not_applicable"; `except Exception as e` distinguishes
`TestFailed` ("fail") from everything else ("exception"), runs
`postMortem()` (its own exceptions are swallowed) and returns from inside
the handler; in all those paths the `finally:` block runs
`classTeardown()`.  On normal completion a falsy result becomes "pass",
while a truthy return value is returned as-is. -/
def run (env : RunEnv) : RunResult :=
  if env.earlyApplicable = false then
    { result := "not_applicable", teardownRan := false, postMortemRan := false }
  else
    match tryBlockOutcome env with
    | .exc (.testNotApplicable _) =>
      { result := "not_applicable", teardownRan := true, postMortemRan := false }
    | .exc (.testFailed _) =>
      { result := "fail", teardownRan := true, postMortemRan := true }
    | .exc _ =>
      { result := "exception", teardownRan := true, postMortemRan := true }
    | .ret none =>
      { result := "pass", teardownRan := true, postMortemRan := false }
    | .ret (some v) =>
      { result := v, teardownRan := true, postMortemRan := false }

end BaseTest

/-- The set of good results (testlib.py line 585):
`good_results = set(('pass', 'not_applicable'))`, modelled as a list with
membership. -/
def good_results : List String := ["pass", "not_applicable"]

/-- Embedding of `results.setdefault(result, []).append((name, log_name))`
(testlib.py line 614) on an insertion-ordered association list (Python
dicts preserve insertion order of keys; only the test names are carried,
the log paths play no role in the exit status). -/
def addResult (rs : List (String × List String)) (key : String) (nm : String) :
    List (String × List String) :=
  match rs with
  | [] => [(key, [nm])]
  | (k, v) :: rest =>
    if k = key then (k, v ++ [nm]) :: rest else (k, v) :: addResult rest key nm

/-- Loop body of `run_tests` (testlib.py lines 586-619): for each test name
the oracle `outcomeOf` gives the string `instance.run()` returned; the
result is recorded, the counter incremented, and with `--fail-fast` the
loop breaks after the first result outside `good_results`. -/
def run_testsGo (fail_fast : Bool) (outcomeOf : String → String) :
    List String → List (String × List String) → Nat →
    List (String × List String) × Nat
  | [], results, count => (results, count)
  | nm :: rest, results, count =>
    let result := outcomeOf nm
    let results := addResult results result nm
    let count := count + 1
    if result ∉ good_results ∧ fail_fast then (results, count)
    else run_testsGo fail_fast outcomeOf rest results count

/-- Embedding of `run_tests(parsed, target, todo)` (testlib.py lines
586-619), with the per-test outcome supplied by `outcomeOf`. -/
def run_tests (fail_fast : Bool) (todo : List String) (outcomeOf : String → String) :
    List (String × List String) × Nat :=
  run_testsGo fail_fast outcomeOf todo [] 0

/-- The outcomes of the tests that actually execute, in order: all of
`todo` without `--fail-fast`, and with it the prefix up to and including
the first bad outcome. -/
def executedOutcomes (fail_fast : Bool) (outcomeOf : String → String) :
    List String → List String
  | [] => []
  | nm :: rest =>
    let result := outcomeOf nm
    if result ∉ good_results ∧ fail_fast then [result]
    else result :: executedOutcomes fail_fast outcomeOf rest

/-- Embedding of `print_results(results)` (testlib.py lines 621-630):
`result = 0`, then for every key of the results dict, a key outside
`good_results` sets `result = 1`; the final value is returned (and becomes
the process exit status via `run_all_tests`). -/
def print_results (rs : List (String × List String)) : Nat :=
  rs.foldl (fun acc kv => if kv.1 ∈ good_results then acc else 1) 0

theorem addResult_keys_mem (rs : List (String × List String)) (key nm a : String) :
    a ∈ (addResult rs key nm).map Prod.fst ↔ a ∈ rs.map Prod.fst ∨ a = key := by
  induction rs with
  | nil => simp [addResult]
  | cons kv rest ih =>
    obtain ⟨k, v⟩ := kv
    by_cases h : k = key
    · subst h
      simp [addResult]
      tauto
    · simp [addResult, h, ih]
      tauto

theorem print_results_eq_zero_iff (rs : List (String × List String)) :
    print_results rs = 0 ↔ ∀ k ∈ rs.map Prod.fst, k ∈ good_results := by
  unfold print_results
  induction rs with
  | nil => simp
  | cons kv rest ih =>
    by_cases h : kv.1 ∈ good_results
    · simpa [h] using ih
    · simp only [List.foldl_cons, if_neg h]
      constructor
      · intro hz
        exfalso
        have : ∀ (l : List (String × List String)) (a : Nat), a ≠ 0 →
            l.foldl (fun acc kv => if kv.1 ∈ good_results then acc else 1) a ≠ 0 := by
          intro l
          induction l with
          | nil => intro a ha; simpa using ha
          | cons x xs ihx =>
            intro a ha
            simp only [List.foldl_cons]
            by_cases hx : x.1 ∈ good_results
            · simpa [hx] using ihx a ha
            · simpa [hx] using ihx 1 (by simp)
        exact this rest 1 (by simp) hz
      · intro hall
        exact absurd (hall kv.1 (by simp)) h

theorem run_testsGo_keys (fail_fast : Bool) (outcomeOf : String → String)
    (todo : List String) (results : List (String × List String)) (count : Nat) (a : String) :
    a ∈ (run_testsGo fail_fast outcomeOf todo results count).1.map Prod.fst ↔
      a ∈ results.map Prod.fst ∨ a ∈ executedOutcomes fail_fast outcomeOf todo := by
  induction todo generalizing results count with
  | nil => simp [run_testsGo, executedOutcomes]
  | cons nm rest ih =>
    simp only [run_testsGo, executedOutcomes]
    by_cases hb : outcomeOf nm ∉ good_results ∧ fail_fast
    · simp only [if_pos hb]
      rw [addResult_keys_mem]
      simp
    · simp only [if_neg hb]
      rw [ih, addResult_keys_mem]
      simp
      tauto

theorem print_results_zero_or_one (rs : List (String × List String)) :
    print_results rs = 0 ∨ print_results rs = 1 := by
  unfold print_results
  have : ∀ (l : List (String × List String)) (a : Nat), a = 0 ∨ a = 1 →
      (l.foldl (fun acc kv => if kv.1 ∈ good_results then acc else 1) a = 0 ∨
       l.foldl (fun acc kv => if kv.1 ∈ good_results then acc else 1) a = 1) := by
    intro l
    induction l with
    | nil => intro a ha; simpa using ha
    | cons x xs ihx =>
      intro a ha
      simp only [List.foldl_cons]
      by_cases hx : x.1 ∈ good_results
      · simpa [hx] using ihx a ha
      · simpa [hx] using ihx 1 (Or.inr rfl)
  exact this rs 0 (Or.inl rfl)

/-- Claim C2: the value `run_all_tests` returns (the process exit status)
is 0 iff every executed test's outcome lies in `good_results = {pass,
not_applicable}`, and it is 1 (nonzero) otherwise — for any fail-fast
setting, test list and per-test outcomes. -/
theorem claim_C2_exit_status (fail_fast : Bool) (todo : List String)
    (outcomeOf : String → String) :
    (print_results (run_tests fail_fast todo outcomeOf).1 = 0 ↔
      ∀ o ∈ executedOutcomes fail_fast outcomeOf todo, o ∈ good_results) ∧
    (print_results (run_tests fail_fast todo outcomeOf).1 = 0 ∨
      print_results (run_tests fail_fast todo outcomeOf).1 = 1) := by
  constructor
  · rw [print_results_eq_zero_iff]
    constructor
    · intro h o ho
      refine h o ?_
      rw [run_tests, run_testsGo_keys]
      exact Or.inr ho
    · intro h k hk
      rw [run_tests, run_testsGo_keys] at hk
      rcases hk with hk | hk
      · simp at hk
      · exact h k hk
  · exact print_results_zero_or_one _

/-- Claim C1 (counterexample): a test body that completes without raising
but returns a truthy value (here the string "surprise") does not get
outcome "pass" — `BaseTest.run` returns the value itself, contradicting
"completing without an exception yields pass". -/
theorem claim_C1_counterexample :
    (BaseTest.run ⟨true, none, none, .ret (some "surprise"), none⟩).result = "surprise" ∧
    ("surprise" : String) ≠ "pass" := by
  exact ⟨rfl, by decide⟩

/-- Claim C1 (amended): for a test past the `early_applicable` check, the
outcome is classified by exception type: `TestFailed` gives "fail",
`TestNotApplicable` gives "not_applicable", any other exception gives
"exception", and completion with a falsy return gives "pass" — while a
truthy return value is returned verbatim as the outcome. -/
theorem claim_C1_classification (env : BaseTest.RunEnv)
    (h : env.earlyApplicable = true) :
    (∀ m, BaseTest.tryBlockOutcome env = .exc (.testFailed m) →
        (BaseTest.run env).result = "fail") ∧
    (∀ m, BaseTest.tryBlockOutcome env = .exc (.testNotApplicable m) →
        (BaseTest.run env).result = "not_applicable") ∧
    (∀ e, BaseTest.tryBlockOutcome env = .exc e →
        (∀ m, e ≠ .testFailed m) → (∀ m, e ≠ .testNotApplicable m) →
        (BaseTest.run env).result = "exception") ∧
    (BaseTest.tryBlockOutcome env = .ret none → (BaseTest.run env).result = "pass") ∧
    (∀ v, BaseTest.tryBlockOutcome env = .ret (some v) → (BaseTest.run env).result = v) := by
  refine ⟨?_, ?_, ?_, ?_, ?_⟩
  · intro m hm
    simp [BaseTest.run, h, hm]
  · intro m hm
    simp [BaseTest.run, h, hm]
  · intro e hm hnf hnna
    cases e with
    | testFailed m => exact absurd rfl (hnf m)
    | testNotApplicable m => exact absurd rfl (hnna m)
    | cannotAccess a => simp [BaseTest.run, h, hm]
    | osError => simp [BaseTest.run, h, hm]
    | attributeError => simp [BaseTest.run, h, hm]
    | valueError => simp [BaseTest.run, h, hm]
    | indexError => simp [BaseTest.run, h, hm]
    | other m => simp [BaseTest.run, h, hm]
  · intro hm
    simp [BaseTest.run, h, hm]
  · intro v hm
    simp [BaseTest.run, h, hm]

theorem claim_C1_classification_witness :
    (BaseTest.run ⟨true, none, none, .exc (.testFailed "boom"), none⟩).result = "fail" :=
  (claim_C1_classification _ rfl).1 "boom" rfl

/-- Claim C9: once the test is past the `early_applicable` check (so
`classSetup` begins), the `finally:` block — and with it `classTeardown`,
which releases the gdb session, the server and the target process — runs
on every exit path: normal completion, `TestFailed`, `TestNotApplicable`,
and any other exception raised by `classSetup`, `setup` or the body. -/
theorem claim_C9_teardown_always (env : BaseTest.RunEnv)
    (h : env.earlyApplicable = true) :
    (BaseTest.run env).teardownRan = true := by
  unfold BaseTest.run
  rw [h]
  simp only [Bool.true_eq_false, if_false]
  cases hx : BaseTest.tryBlockOutcome env with
  | ret v => cases v <;> simp
  | exc e => cases e <;> simp

theorem claim_C9_teardown_always_witness :
    (BaseTest.run ⟨true, some .osError, none, .ret none, none⟩).teardownRan = true :=
  claim_C9_teardown_always _ rfl

/-- Python whitespace as stripped by `str.strip()`. -/
def pyIsSpace (c : Char) : Bool :=
  c = ' ' || c = '\t' || c = '\n' || c = '\x0d' || c = '\x0b' || c = '\x0c'

/-- Embedding of `str.strip()` with no argument: drop whitespace from both
ends. -/
def pyStrip (l : List Char) : List Char :=
  ((l.dropWhile pyIsSpace).reverse.dropWhile pyIsSpace).reverse

/-- Embedding of `str.split(sep)` for a one-character separator (the
source splits on `":"` and `"="`): like Python, adjacent separators give
empty fields and the empty string splits to `[""]`. -/
def splitChar (sep : Char) : List Char → List (List Char)
  | [] => [[]]
  | c :: rest =>
    if c = sep then [] :: splitChar sep rest
    else
      match splitChar sep rest with
      | [] => [[c]]
      | h :: t => (c :: h) :: t

/-- Embedding of `str.split(", ")` (the separator `parse_string` uses):
leftmost non-overlapping matches of the two-character separator. -/
def splitCommaSpace : List Char → List (List Char)
  | [] => [[]]
  | [c] => [[c]]
  | c1 :: c2 :: rest =>
    if c1 = ',' ∧ c2 = ' ' then [] :: splitCommaSpace rest
    else
      match splitCommaSpace (c2 :: rest) with
      | [] => [[c1]]
      | h :: t => (c1 :: h) :: t

/-- Consume the literal `lit` from the front of `l`, returning the
remainder on success. -/
def consumeLit : List Char → List Char → Option (List Char)
  | [], rest => some rest
  | _ :: _, [] => none
  | c :: cs, r :: rs => if c = r then consumeLit cs rs else none

/-- One character of the character class `[0-9a-f]`. -/
def isHexLower (c : Char) : Bool := c.isDigit || ('a' ≤ c && c ≤ 'f')

/-- Hex digit value for `[0-9a-f]`. -/
def hexVal (c : Char) : Nat := if c.isDigit then c.toNat - 48 else c.toNat - 87

/-- Value of a lowercase hex digit string. -/
def hexListVal (l : List Char) : Nat := l.foldl (fun a c => a * 16 + hexVal c) 0

/-- Value of a decimal digit string. -/
def decListVal (l : List Char) : Nat := l.foldl (fun a c => a * 10 + (c.toNat - 48)) 0

/-- The fixed part of the pattern
`"Cannot access memory at address (0x[0-9a-f]+)"` up to the capture's hex
digits. -/
def cannotAccessLit : List Char := "Cannot access memory at address 0x".data

/-- Match the cannot-access pattern anchored at the front of `l`,
returning the captured address, i.e. `int(m.group(1), 0)` where the group
is `0x` followed by the longest nonempty run of `[0-9a-f]`. -/
def tryCannotAccessAt (l : List Char) : Option Nat :=
  match consumeLit cannotAccessLit l with
  | none => none
  | some rest =>
    let ds := rest.takeWhile isHexLower
    if ds.isEmpty then none else some (hexListVal ds)

/-- Embedding of
`re.search("Cannot access memory at address (0x[0-9a-f]+)", output)`
followed by `int(m.group(1), 0)` (testlib.py lines 471-473 and 488-490):
scan left to right for the first position where the pattern matches. -/
def searchCannotAccess : List Char → Option Nat
  | [] => none
  | c :: rest =>
    match tryCannotAccessAt (c :: rest) with
    | some n => some n
    | none => searchCannotAccess rest

/-- One character of `[0-9a-fA-F]`, as accepted by Python `int(_, 0)`
after a `0x` prefix. -/
def isHexAny (c : Char) : Bool :=
  c.isDigit || ('a' ≤ c && c ≤ 'f') || ('A' ≤ c && c ≤ 'F')

/-- Hex digit value for `[0-9a-fA-F]`. -/
def hexAnyVal (c : Char) : Nat :=
  if c.isDigit then c.toNat - 48
  else if 'a' ≤ c then c.toNat - 87
  else c.toNat - 55

/-- Value of a mixed-case hex digit string. -/
def hexAnyListVal (l : List Char) : Nat := l.foldl (fun a c => a * 16 + hexAnyVal c) 0

/-- Embedding of Python `int(text, 0)` on the numerals gdb emits: strip,
optional sign, then a `0x`/`0X` hex literal or a decimal literal (base 0
rejects leading zeros; the `0b`/`0o` forms never occur in gdb output and
are likewise rejected here).  `none` models the `ValueError` Python
raises on anything else. -/
def pyIntBase0 (l0 : List Char) : Option Int :=
  let t := pyStrip l0
  let signAndDigits : Int × List Char :=
    match t with
    | '-' :: rest => (-1, rest)
    | '+' :: rest => (1, rest)
    | l => (1, l)
  match signAndDigits.2 with
  | '0' :: 'x' :: ds =>
    if ds ≠ [] ∧ ds.all isHexAny then some (signAndDigits.1 * hexAnyListVal ds) else none
  | '0' :: 'X' :: ds =>
    if ds ≠ [] ∧ ds.all isHexAny then some (signAndDigits.1 * hexAnyListVal ds) else none
  | ['0'] => some 0
  | ds =>
    if ds ≠ [] ∧ ds.all Char.isDigit ∧ ds.head? ≠ some '0' then
      some (signAndDigits.1 * decListVal ds)
    else none

/-- Values produced by `Gdb.parse_string`: an integer, a string, or a
nested list parsed from a braced aggregate. -/
inductive GdbValue where
  | num (n : Int)
  | str (s : String)
  | agg (vs : List GdbValue)
deriving Repr

mutual

/-- Embedding of `Gdb.parse_string` (testlib.py lines 476-484), with a
fuel argument standing for Python's recursion limit: a braced aggregate
splits its inside on `", "` and parses each piece recursively, a
double-quoted text yields the quoted contents, anything else must parse
as `int(text, 0)` or the call raises `ValueError`. -/
def parse_stringF : Nat → List Char → Except Exc GdbValue
  | 0, _ => .error (.other "RecursionError")
  | f + 1, text0 =>
    let text := pyStrip text0
    if text.head? = some '\x7b' ∧ text.getLast? = some '\x7d' then
      match parsePartsF f (splitCommaSpace ((text.drop 1).dropLast)) with
      | .ok vs => .ok (.agg vs)
      | .error e => .error e
    else if text.head? = some '"' ∧ text.getLast? = some '"' then
      .ok (.str ⟨(text.drop 1).dropLast⟩)
    else
      match pyIntBase0 text with
      | some n => .ok (.num n)
      | none => .error .valueError
termination_by f _ => (f, 0)

/-- Parse each comma-separated piece of an aggregate, propagating the
first failure (the list comprehension in the source evaluates
`parse_string` on each piece in order). -/
def parsePartsF : Nat → List (List Char) → Except Exc (List GdbValue)
  | _, [] => .ok []
  | f, t :: ts =>
    match parse_stringF f t with
    | .error e => .error e
    | .ok v =>
      match parsePartsF f ts with
      | .error e => .error e
      | .ok vs => .ok (v :: vs)
termination_by f l => (f, l.length + 1)

end

/-- Entry point `Gdb.parse_string`: the nesting depth of a braced
aggregate is below the length of the text, so `length + 1` fuel never
runs out on the inputs the source can meet. -/
def Gdb.parse_string (s : String) : Except Exc GdbValue :=
  parse_stringF (s.data.length + 1) s.data

/-- Embedding of `Gdb.p` (testlib.py lines 486-492).  The `output`
argument is the response `self.command("p%s %s" % (fmt, obj))` captured
from gdb; the source searches it for the cannot-access pattern, raises
`CannotAccess` with the parsed address on a match, and otherwise parses
the text after the last `=`. -/
def Gdb.p (output : String) : Except Exc GdbValue :=
  match searchCannotAccess output.data with
  | some a => .error (.cannotAccess a)
  | none =>
    let rhs : List Char := (splitChar '=' output.data).getLastD []
    parse_stringF (rhs.length + 1) rhs

/-- Embedding of `Gdb.p_raw` (testlib.py lines 469-474): same pattern
check, but the text after the last `=` is returned stripped, unparsed. -/
def Gdb.p_raw (output : String) : Except Exc String :=
  match searchCannotAccess output.data with
  | some a => .error (.cannotAccess a)
  | none => .ok ⟨pyStrip ((splitChar '=' output.data).getLastD [])⟩

/-- Embedding of `Gdb.x` (testlib.py lines 464-467):
`int(output.split(":")[1].strip(), 0)` with no cannot-access check — a
missing `:` field raises `IndexError`, a non-numeral raises
`ValueError`. -/
def Gdb.x (output : String) : Except Exc Int :=
  match (splitChar ':' output.data).get? 1 with
  | none => .error .indexError
  | some t =>
    match pyIntBase0 (pyStrip t) with
    | some v => .ok v
    | none => .error .valueError

deriving instance DecidableEq for Except

theorem parse_no_cannotAccess : ∀ f : Nat,
    (∀ s a, parse_stringF f s ≠ .error (.cannotAccess a)) ∧
    (∀ l a, parsePartsF f l ≠ .error (.cannotAccess a)) := by
  intro f
  induction f with
  | zero =>
    refine ⟨?_, ?_⟩
    · intro s a
      simp [parse_stringF]
    · intro l a
      cases l with
      | nil => simp [parsePartsF]
      | cons t ts => simp [parsePartsF, parse_stringF]
  | succ f ihf =>
    have hA : ∀ s a, parse_stringF (f + 1) s ≠ .error (.cannotAccess a) := by
      intro s a
      simp only [parse_stringF]
      split
      · cases h : parsePartsF f (splitCommaSpace (((pyStrip s).drop 1).dropLast)) with
        | ok vs => simp
        | error e =>
          simp only [h]
          intro hc
          injection hc with he
          exact ihf.2 _ a (he ▸ h)
      · split
        · simp
        · cases hp : pyIntBase0 (pyStrip s) with
          | some n => simp [hp]
          | none => simp [hp]
    refine ⟨hA, ?_⟩
    intro l a
    induction l with
    | nil => simp [parsePartsF]
    | cons t ts ih =>
      simp only [parsePartsF]
      cases h : parse_stringF (f + 1) t with
      | error e =>
        intro hc
        injection hc with he
        exact hA t a (he ▸ h)
      | ok v =>
        cases h2 : parsePartsF (f + 1) ts with
        | error e =>
          intro hc
          injection hc with he
          exact ih (he ▸ h2)
        | ok vs => simp

/-- Claim C3 (counterexample): `Gdb.x` is also a command sent through the
session, and on a response matching the cannot-access pattern it does not
raise `CannotAccess`: it fails with a plain `ValueError` from parsing the
text after the first `:` as an integer.  So the translation is not
performed for every command. -/
theorem claim_C3_counterexample :
    searchCannotAccess ("0x0:\tCannot access memory at address 0x0").data = some 0 ∧
    Gdb.x "0x0:\tCannot access memory at address 0x0" = .error .valueError ∧
    ∀ a, Gdb.x "0x0:\tCannot access memory at address 0x0" ≠ .error (.cannotAccess a) := by
  refine ⟨by decide, by decide, ?_⟩
  intro a
  have h : Gdb.x "0x0:\tCannot access memory at address 0x0" = .error .valueError := by
    decide
  rw [h]
  intro hc
  injection hc with he
  exact Exc.noConfusion he

/-- Claim C3 (amended): for the print commands `Gdb.p` and `Gdb.p_raw`,
`CannotAccess` — carrying the address parsed from the response — is
raised exactly when the response matches the cannot-access pattern, and
no opaque text is returned in that case; `Gdb.x` performs no such
translation. -/
theorem claim_C3_cannot_access (output : String) :
    (∀ a, searchCannotAccess output.data = some a →
      Gdb.p output = .error (.cannotAccess a) ∧
      Gdb.p_raw output = .error (.cannotAccess a)) ∧
    (searchCannotAccess output.data = none →
      (∀ a, Gdb.p output ≠ .error (.cannotAccess a)) ∧
      (∀ a, Gdb.p_raw output ≠ .error (.cannotAccess a))) := by
  refine ⟨?_, ?_⟩
  · intro a h
    constructor
    · simp [Gdb.p, h]
    · simp [Gdb.p_raw, h]
  · intro h
    refine ⟨?_, ?_⟩
    · intro a
      simp only [Gdb.p, h]
      exact (parse_no_cannotAccess _).1 _ a
    · intro a
      simp [Gdb.p_raw, h]

theorem claim_C3_cannot_access_witness :
    Gdb.p "Cannot access memory at address 0x123" = .error (.cannotAccess 291) ∧
    Gdb.p_raw "$1 = 7" ≠ .error (.cannotAccess 7) :=
  ⟨((claim_C3_cannot_access "Cannot access memory at address 0x123").1 291 (by decide)).1,
   ((claim_C3_cannot_access "$1 = 7").2 (by decide)).2 7⟩

/-- The fixed part of the pattern `"Hart (\d+)"`. -/
def hartLit : List Char := "Hart ".data

/-- Match the hart-label pattern anchored at the front of `l`, returning
the captured decimal number. -/
def tryHartAt (l : List Char) : Option Nat :=
  match consumeLit hartLit l with
  | none => none
  | some rest =>
    let ds := rest.takeWhile Char.isDigit
    if ds.isEmpty then none else some (decListVal ds)

/-- Embedding of `re.search(r"Hart (\d+)", t.name)` followed by
`int(m.group(1))` (testlib.py lines 366-368). -/
def searchHart : List Char → Option Nat
  | [] => none
  | c :: rest =>
    match tryHartAt (c :: rest) with
    | some n => some n
    | none => searchHart rest

/-- The `hartid` extracted from a discovered thread's name in
`Gdb.connect` (testlib.py lines 364-368): `None` when the name is absent
or empty (falsy `t.name`) or when the pattern does not occur. -/
def connectLabel (nameOpt : Option String) : Option Nat :=
  match nameOpt with
  | some nm => if nm = "" then none else searchHart nm.data
  | none => none

/-- Embedding of the hart-id assignment for one discovered thread in
`Gdb.connect` (testlib.py lines 363-374): an embedded "Hart N" label
gives N; otherwise `max(self.harts) + 1`, or 0 when `self.harts` is still
empty.  `assigned` lists the keys of `self.harts` registered so far. -/
def connectHartId (assigned : List Nat) (nameOpt : Option String) : Nat :=
  match connectLabel nameOpt with
  | some n => n
  | none =>
    match assigned with
    | [] => 0
    | _ :: _ => assigned.foldl Nat.max 0 + 1

/-- The sequence of hart ids `Gdb.connect` assigns to a sequence of
discovered thread names, threading the growing key set of `self.harts`
through (`self.harts[hartid] = (child, t)` registers the id even when it
collides with — and thus overwrites — an earlier entry). -/
def connectAssignGo : List (Option String) → List Nat → List Nat
  | [], _ => []
  | nm :: rest, assigned =>
    let h := connectHartId assigned nm
    h :: connectAssignGo rest (assigned ++ [h])

/-- Hart ids assigned during `Gdb.connect`, starting from an empty
`self.harts`. -/
def connectAssign (names : List (Option String)) : List Nat :=
  connectAssignGo names []

theorem foldl_max_le (l : List Nat) (a : Nat) :
    (∀ x ∈ l, x ≤ l.foldl Nat.max a) ∧ a ≤ l.foldl Nat.max a := by
  induction l generalizing a with
  | nil => simp
  | cons b bs ih =>
    simp only [List.foldl_cons]
    refine ⟨?_, ?_⟩
    · intro x hx
      rcases List.mem_cons.mp hx with hx | hx
      · subst hx
        exact le_trans (le_max_right a x) (ih (Nat.max a x)).2
      · exact (ih (Nat.max a b)).1 x hx
    · exact le_trans (le_max_left a b) (ih (Nat.max a b)).2

/-- Claim C6 (counterexample): an unlabelled thread followed by one
labelled "Hart 0" collide — the unlabelled unit is assigned id 0 and the
labelled unit is also assigned id 0 (overwriting the first in
`self.harts`), so units can be assigned colliding identifiers. -/
theorem claim_C6_counterexample :
    connectAssign [none, some "Thread 1 (Name: Hart 0)"] = [0, 0] ∧
    ¬ (connectAssign [none, some "Thread 1 (Name: Hart 0)"]).Nodup := by
  refine ⟨by decide, ?_⟩
  intro h
  rw [show connectAssign [none, some "Thread 1 (Name: Hart 0)"] = [0, 0] by decide] at h
  simp at h

/-- Claim C6 (amended): each discovered unit is assigned an id as the
claim states — the embedded "Hart N" label when the front-end provides
one, and otherwise a synthesized id (`max + 1`, or 0 on an empty table)
that never collides with any previously assigned id.  A later labelled
unit, however, may collide with an earlier assignment (see the
counterexample), so only the synthesized ids are collision-free. -/
theorem claim_C6_assignment (assigned : List Nat) (nameOpt : Option String) :
    (∀ n, connectLabel nameOpt = some n → connectHartId assigned nameOpt = n) ∧
    (connectLabel nameOpt = none → connectHartId assigned nameOpt ∉ assigned) := by
  refine ⟨?_, ?_⟩
  · intro n h
    simp [connectHartId, h]
  · intro h
    cases assigned with
    | nil => simp [connectHartId, h]
    | cons b bs =>
      simp only [connectHartId, h]
      intro hmem
      have hle := (foldl_max_le (b :: bs) 0).1 _ hmem
      omega

theorem claim_C6_assignment_witness :
    connectHartId [0, 5] (some "Thread 2 (Name: Hart 7)") = 7 ∧
    connectHartId [0, 5] (some "Remote target") ∉ [0, 5] :=
  ⟨(claim_C6_assignment [0, 5] (some "Thread 2 (Name: Hart 7)")).1 7 (by decide),
   (claim_C6_assignment [0, 5] (some "Remote target")).2 (by decide)⟩

/-- The mutable state of a `Gdb` object relevant to session selection:
`self.active_child` (here an index naming one of `self.children`) and
`self.stack` of saved selections — `push_state` saves exactly
`{"active_child": self.active_child}` and `pop_state` restores it.  The
Python list is used as a stack (append/pop at the end); the head of the
Lean list is the top. -/
structure GdbState where
  active_child : Nat
  stack : List Nat
deriving DecidableEq, Repr

/-- Embedding of `Gdb.push_state` (testlib.py lines 392-395). -/
def push_state (st : GdbState) : GdbState :=
  { st with stack := st.active_child :: st.stack }

/-- Embedding of `Gdb.pop_state` (testlib.py lines 397-399); popping an
empty stack raises `IndexError`, modelled as `none`. -/
def pop_state (st : GdbState) : Option GdbState :=
  match st.stack with
  | [] => none
  | a :: rest => some { active_child := a, stack := rest }

/-- Embedding of `Gdb.select_child` (testlib.py lines 383-384). -/
def select_child (st : GdbState) (child : Nat) : GdbState :=
  { st with active_child := child }

/-- Embedding of a `with PrivateState(self):` block (testlib.py lines
541-549): `__enter__` pushes, the body runs — returning its final state
and the exception it raised, if any — and `__exit__` pops
unconditionally, exception or not. -/
def withPrivateState (body : GdbState → GdbState × Option Exc) (st : GdbState) :
    GdbState × Option Exc :=
  let st1 := push_state st
  let res := body st1
  match pop_state res.1 with
  | some st3 => (st3, res.2)
  | none => (res.1, some .indexError)

/-- Inner loop of `Gdb.global_command`: select each child in turn and run
the command on it; `cmdExc` says whether `self.command(command)` on a
given child raises (a timeout, a failed assertion in `command`, ...).
Execution stops at the first raising command. -/
def commandLoop (cmdExc : Nat → Option Exc) : List Nat → GdbState → GdbState × Option Exc
  | [], st => (st, none)
  | c :: cs, st =>
    let st := select_child st c
    match cmdExc c with
    | some e => (st, some e)
    | none => commandLoop cmdExc cs st

/-- Embedding of `Gdb.global_command` (testlib.py lines 412-417): the
per-child command loop wrapped in a `PrivateState` block. -/
def global_command (children : List Nat) (cmdExc : Nat → Option Exc) (st : GdbState) :
    GdbState × Option Exc :=
  withPrivateState (commandLoop cmdExc children) st

theorem commandLoop_stack (cmdExc : Nat → Option Exc) (children : List Nat) (st : GdbState) :
    (commandLoop cmdExc children st).1.stack = st.stack := by
  induction children generalizing st with
  | nil => rfl
  | cons c cs ih =>
    simp only [commandLoop]
    cases cmdExc c with
    | some e => rfl
    | none => exact ih _

theorem withPrivateState_restores (body : GdbState → GdbState × Option Exc)
    (hbody : ∀ s, (body s).1.stack = s.stack) (s : GdbState) :
    (withPrivateState body s).1.stack = s.stack ∧
    (withPrivateState body s).1.active_child = s.active_child := by
  have h : (body (push_state s)).1.stack = s.active_child :: s.stack := by
    rw [hbody (push_state s)]
    rfl
  have hp : pop_state (body (push_state s)).1 = some ⟨s.active_child, s.stack⟩ := by
    simp only [pop_state, h]
  simp only [withPrivateState]
  rw [hp]
  exact ⟨rfl, rfl⟩

/-- Claim C4: a broadcast (`Gdb.global_command`) leaves the active
session exactly as it found it — and the saved-selection stack too — for
every set of sessions, every pattern of per-session command success or
failure, and every starting state; moreover `withPrivateState` of any
stack-preserving body is itself stack-preserving and restores the active
session, so the push/pop discipline composes under nesting. -/
theorem claim_C4_broadcast_restores (children : List Nat) (cmdExc : Nat → Option Exc)
    (st : GdbState) :
    ((global_command children cmdExc st).1.active_child = st.active_child ∧
     (global_command children cmdExc st).1.stack = st.stack) ∧
    (∀ body : GdbState → GdbState × Option Exc,
      (∀ s, (body s).1.stack = s.stack) →
      ∀ s, (withPrivateState body s).1.stack = s.stack ∧
        (withPrivateState body s).1.active_child = s.active_child) := by
  refine ⟨?_, ?_⟩
  · have h := withPrivateState_restores (commandLoop cmdExc children)
      (fun s => commandLoop_stack cmdExc children s) st
    exact ⟨h.2, h.1⟩
  · intro body hbody s
    exact withPrivateState_restores body hbody s

theorem claim_C4_broadcast_restores_witness :
    (global_command [1, 2] (fun c => if c = 2 then some .osError else none)
        ⟨0, []⟩).1.active_child = 0 ∧
    (withPrivateState (fun s => (s, some (.other "boom"))) ⟨3, [9]⟩).1.active_child = 3 :=
  ⟨(claim_C4_broadcast_restores [1, 2] (fun c => if c = 2 then some .osError else none)
      ⟨0, []⟩).1.1,
   ((claim_C4_broadcast_restores [] (fun _ => none) ⟨0, []⟩).2
      (fun s => (s, some (.other "boom"))) (fun _ => rfl) ⟨3, [9]⟩).2⟩

/-- Events of the `Gdb.c_all` loops: `resumeSent c` is
`child.sendline("c")` — the resume command being issued on session `c` —
and `haltWait c` is the `child.expect(r"\(gdb\)")` that waits for session
`c` to report the prompt after halting. -/
inductive ResumeEvent where
  | resumeSent (child : Nat)
  | haltWait (child : Nat)
deriving DecidableEq, Repr

/-- First loop of `Gdb.c_all`: `sendline("c")` on each child, then
`expect("Continuing")`; `contOk` says whether that expect succeeds.  A
failing expect raises and aborts the loop; the resume for that child has
already been sent. -/
def resumeLoop (contOk : Nat → Bool) : List Nat → List ResumeEvent × Bool
  | [] => ([], true)
  | c :: cs =>
    if contOk c then
      ((ResumeEvent.resumeSent c) :: (resumeLoop contOk cs).1, (resumeLoop contOk cs).2)
    else ([ResumeEvent.resumeSent c], false)

/-- Second loop of `Gdb.c_all`: wait for each child's prompt; `haltOk`
says whether the expect succeeds, a failure aborting the loop. -/
def haltLoop (haltOk : Nat → Bool) : List Nat → List ResumeEvent
  | [] => []
  | c :: cs =>
    if haltOk c then (ResumeEvent.haltWait c) :: haltLoop haltOk cs
    else [ResumeEvent.haltWait c]

/-- Event trace of `Gdb.c_all` (testlib.py lines 438-457): inside a
`PrivateState` block, first resume every child, then — only if no resume
expect raised — wait for each child to halt. -/
def c_all_events (children : List Nat) (contOk haltOk : Nat → Bool) : List ResumeEvent :=
  let r := resumeLoop contOk children
  if r.2 then r.1 ++ haltLoop haltOk children else r.1

/-- After the first wait-for-halt event, no further resume is issued:
checks that the trace is a run of `resumeSent` events followed by a run
of `haltWait` events. -/
def noResumeAfterHalt : List ResumeEvent → Bool
  | [] => true
  | .resumeSent _ :: rest => noResumeAfterHalt rest
  | .haltWait _ :: rest =>
    rest.all (fun e => match e with | .haltWait _ => true | .resumeSent _ => false)

theorem haltLoop_all_halt (haltOk : Nat → Bool) (cs : List Nat) :
    (haltLoop haltOk cs).all
      (fun e => match e with | .haltWait _ => true | .resumeSent _ => false) = true := by
  induction cs with
  | nil => rfl
  | cons c rest ih =>
    simp only [haltLoop]
    by_cases h : haltOk c
    · simp [h, ih]
    · simp [h]

theorem noResumeAfterHalt_append (rs hs : List ResumeEvent)
    (hr : ∀ e ∈ rs, ∃ c, e = .resumeSent c)
    (hh : hs.all (fun e => match e with | .haltWait _ => true | .resumeSent _ => false)
      = true) :
    noResumeAfterHalt (rs ++ hs) = true := by
  induction rs with
  | nil =>
    cases hs with
    | nil => rfl
    | cons e rest =>
      simp only [List.nil_append]
      simp only [List.all_cons, Bool.and_eq_true] at hh
      cases e with
      | resumeSent c => simp at hh
      | haltWait c =>
        simp only [noResumeAfterHalt]
        exact hh.2
  | cons e rest ih =>
    obtain ⟨c, hc⟩ := hr e (by simp)
    subst hc
    simp only [List.cons_append, noResumeAfterHalt]
    exact ih (fun e he => hr e (by simp [he]))

theorem resumeLoop_all_resume (contOk : Nat → Bool) (cs : List Nat) :
    ∀ e ∈ (resumeLoop contOk cs).1, ∃ c, e = ResumeEvent.resumeSent c := by
  induction cs with
  | nil => simp [resumeLoop]
  | cons c rest ih =>
    simp only [resumeLoop]
    by_cases h : contOk c
    · simp only [h, if_true]
      intro e he
      rcases List.mem_cons.mp he with he | he
      · exact ⟨c, he⟩
      · exact ih e he
    · simp only [h, if_false]
      intro e he
      rcases List.mem_cons.mp he with he | he
      · exact ⟨c, he⟩
      · simp at he

theorem resumeLoop_complete (contOk : Nat → Bool) (cs : List Nat)
    (h : (resumeLoop contOk cs).2 = true) :
    (resumeLoop contOk cs).1 = cs.map ResumeEvent.resumeSent := by
  induction cs with
  | nil => rfl
  | cons c rest ih =>
    by_cases hc : contOk c
    · simp only [resumeLoop, hc, if_true] at h ⊢
      simp [ih h]
    · simp [resumeLoop, hc] at h

/-- Claim C5: in the event order `Gdb.c_all` produces, every resume-issue
event precedes every wait-for-halt event — for any set of sessions and
any pattern of expect successes and failures — and when no resume expect
fails the resume is issued on every session before the first
wait-for-halt begins. -/
theorem claim_C5_resume_ordering (children : List Nat) (contOk haltOk : Nat → Bool) :
    noResumeAfterHalt (c_all_events children contOk haltOk) = true ∧
    ((resumeLoop contOk children).2 = true →
      c_all_events children contOk haltOk =
        children.map ResumeEvent.resumeSent ++ haltLoop haltOk children) := by
  constructor
  · unfold c_all_events
    by_cases h : (resumeLoop contOk children).2
    · simp only [h, if_true]
      exact noResumeAfterHalt_append _ _ (resumeLoop_all_resume contOk children)
        (haltLoop_all_halt haltOk children)
    · simp only [h, Bool.false_eq_true, if_false]
      have := resumeLoop_all_resume contOk children
      generalize hg : (resumeLoop contOk children).1 = rs at this
      clear hg
      induction rs with
      | nil => rfl
      | cons e rest ih =>
        obtain ⟨c, hc⟩ := this e (by simp)
        subst hc
        exact ih (fun e he => this e (by simp [he]))
  · intro h
    unfold c_all_events
    simp only [h, if_true, resumeLoop_complete contOk children h]

theorem claim_C5_resume_ordering_witness :
    c_all_events [0, 1, 2] (fun _ => true) (fun _ => true) =
      [ResumeEvent.resumeSent 0, ResumeEvent.resumeSent 1, ResumeEvent.resumeSent 2] ++
      [ResumeEvent.haltWait 0, ResumeEvent.haltWait 1, ResumeEvent.haltWait 2] := by
  have h := (claim_C5_resume_ordering [0, 1, 2] (fun _ => true) (fun _ => true)).2 (by decide)
  rw [h]
  decide

/-- The fixed part of the pattern `"^Listening on port (\d+)$"` that
`VcsSim.__init__` matches each log line against. -/
def listeningLit : List Char := "Listening on port ".data

/-- Embedding of `re.match(r"^Listening on port (\d+)$", line)` followed
by `int(match.group(1))` (testlib.py lines 174-177): anchored at the
start, one or more digits, then the end of the line (lines are modelled
without their trailing newline, which `$` skips). -/
def matchListening (l : List Char) : Option Nat :=
  match consumeLit listeningLit l with
  | none => none
  | some rest =>
    let ds := rest.takeWhile Char.isDigit
    if ds.isEmpty then none
    else if rest.dropWhile Char.isDigit = [] then some (decListVal ds)
    else none

/-- How the port-wait loop of `VcsSim.__init__` ends, when it does. -/
inductive VcsWait where
  | gotPort (port : Nat)
  | earlyExit (code : Int)
deriving DecidableEq, Repr

/-- Embedding of the `while not done:` loop of `VcsSim.__init__`
(testlib.py lines 163-178).  Iteration `i` observes
`pollRes i = self.process.poll()` (an exit code once the simulator has
exited) and reads `lineAt i` from the log (the empty string while nothing
new has been written; the source then sleeps and still runs the match on
the empty line).  The Python loop has no iteration bound and no timeout;
`fuel` only bounds how far we unfold it, `none` meaning it is still
looping after `fuel` iterations. -/
def vcsWaitLoop (pollRes : Nat → Option Int) (lineAt : Nat → String) :
    Nat → Nat → Option VcsWait
  | _, 0 => none
  | i, fuel + 1 =>
    match pollRes i with
    | some code => some (.earlyExit code)
    | none =>
      match matchListening (lineAt i).data with
      | some p => some (.gotPort p)
      | none => vcsWaitLoop pollRes lineAt (i + 1) fuel

/-- Claim C7: the wait for the VCS port announcement is not bounded by
any timeout.  For a simulator process that stays alive (`poll()` always
`None`) and a log in which the announcement pattern never appears, the
loop of `VcsSim.__init__` is still running after any number of
iterations: it neither raises a discovery error nor terminates, contrary
to the claim that every such wait is bounded.  (The analogous wait in
`Spike.__init__` is bounded at 30 polls and raises with the log
surfaced; this loop is the exception.) -/
theorem claim_C7_vcs_wait_unbounded (pollRes : Nat → Option Int) (lineAt : Nat → String)
    (hpoll : ∀ j, pollRes j = none)
    (hline : ∀ j, matchListening (lineAt j).data = none) :
    ∀ fuel i, vcsWaitLoop pollRes lineAt i fuel = none := by
  intro fuel
  induction fuel with
  | zero => intro i; rfl
  | succ fuel ih =>
    intro i
    simp only [vcsWaitLoop, hpoll i, hline i]
    exact ih (i + 1)

theorem claim_C7_vcs_wait_unbounded_witness :
    vcsWaitLoop (fun _ => none) (fun _ => "") 0 1000 = none :=
  claim_C7_vcs_wait_unbounded (fun _ => none) (fun _ => "")
    (fun _ => rfl) (fun _ => rfl) 1000 0

/-- A spawned subprocess as `__del__` sees it: `alive` is whether it can
still be signalled; `Popen.kill` on a process that is already gone raises
`OSError`, modelled by `procKill`. -/
structure ProcHandle where
  alive : Bool
deriving DecidableEq, Repr

/-- Effect of `self.process.kill()`: kill a live process, `OSError` on a
dead one. -/
def procKill (p : ProcHandle) : ProcHandle × Option Exc :=
  if p.alive then ({ alive := false }, none) else (p, some .osError)

/-- Embedding of `Spike.__del__` (testlib.py lines 133-139).
`self.process` is set to `None` first thing in `__init__`, so the
attribute always exists; a `None` process is skipped by the `if`, and
`kill()`/`wait()` run under `except OSError: pass`. -/
def Spike.del (process : Option ProcHandle) : Option ProcHandle × Option Exc :=
  match process with
  | none => (none, none)
  | some p =>
    match procKill p with
    | (p2, some .osError) => (some p2, none)
    | (p2, some e) => (some p2, some e)
    | (p2, none) => (some p2, none)

/-- Embedding of `VcsSim.__del__` (testlib.py lines 180-185): no `None`
guard and only `except OSError`, so on a handle whose constructor failed
before `subprocess.Popen` assigned `self.process`, the attribute access
raises `AttributeError` (modelled by `process = none`); otherwise
`kill()`/`wait()` run with `OSError` swallowed. -/
def VcsSim.del (process : Option ProcHandle) : Option ProcHandle × Option Exc :=
  match process with
  | none => (none, some .attributeError)
  | some p =>
    match procKill p with
    | (p2, some .osError) => (some p2, none)
    | (p2, some e) => (some p2, some e)
    | (p2, none) => (some p2, none)

/-- Claim C8 (counterexample): `VcsSim.__del__` on a handle whose
underlying process was never successfully started (the constructor failed
before `Popen` assigned `self.process`) raises `AttributeError` — the
teardown does not "never raise". -/
theorem claim_C8_counterexample :
    (VcsSim.del none).2 = some .attributeError ∧ (VcsSim.del none).2 ≠ none := by
  exact ⟨rfl, by decide⟩

/-- Claim C8 (amended): teardown is idempotent and never raises for
`Spike` handles in every state (process never started, still running, or
already exited) — the second call is a no-op — and likewise for `VcsSim`
handles whose process attribute exists; only a `VcsSim` handle whose
constructor failed before spawning raises (`AttributeError`, see the
counterexample). -/
theorem claim_C8_teardown_idempotent (process : Option ProcHandle) (p : ProcHandle) :
    ((Spike.del process).2 = none ∧
     Spike.del (Spike.del process).1 = ((Spike.del process).1, none)) ∧
    ((VcsSim.del (some p)).2 = none ∧
     VcsSim.del (VcsSim.del (some p)).1 = ((VcsSim.del (some p)).1, none)) := by
  refine ⟨⟨?_, ?_⟩, ⟨?_, ?_⟩⟩
  · cases process with
    | none => rfl
    | some p2 => cases hp : p2.alive <;> simp [Spike.del, procKill, hp]
  · cases process with
    | none => rfl
    | some p2 => cases hp : p2.alive <;> simp [Spike.del, procKill, hp]
  · cases hp : p.alive <;> simp [VcsSim.del, procKill, hp]
  · cases hp : p.alive <;> simp [VcsSim.del, procKill, hp]

/-- A `compile_args` tuple, as stored as a key of the class-level dict
`BaseTest.compiled`. -/
abbrev CompileArgs := List String

/-- Embedding of dict membership / `dict.get` on `BaseTest.compiled`. -/
def compiledGet (m : List (CompileArgs × String)) (k : CompileArgs) : Option String :=
  match m with
  | [] => none
  | kv :: rest => if kv.1 = k then some kv.2 else compiledGet rest k

/-- Python truthiness of `compile_args = getattr(self, "compile_args",
None)`: absent (`None`) and the empty tuple are falsy. -/
def truthyArgs : Option CompileArgs → Bool
  | some (_ :: _) => true
  | _ => false

/-- Embedding of `BaseTest.compile` (testlib.py lines 690-696) for one
test: when `compile_args` is truthy and not yet a key of the class-level
cache, `self.target.compile(self.hart, *compile_args)` (the oracle
`targetCompile`) is invoked and stored; then
`self.binary = BaseTest.compiled.get(compile_args)`.  Returns the binary,
the updated cache, and the list of compile invocations made (one or
none). -/
def BaseTest.compileOne (targetCompile : CompileArgs → String)
    (compile_args : Option CompileArgs) (compiled : List (CompileArgs × String)) :
    Option String × List (CompileArgs × String) × List CompileArgs :=
  let step : List (CompileArgs × String) × List CompileArgs :=
    match compile_args, truthyArgs compile_args with
    | some args, true =>
      match compiledGet compiled args with
      | none => (compiled ++ [(args, targetCompile args)], [args])
      | some _ => (compiled, [])
    | _, _ => (compiled, [])
  let binary : Option String :=
    match compile_args with
    | some args => compiledGet step.1 args
    | none => none
  (binary, step.1, step.2)

/-- Running `BaseTest.compile` for a whole suite: each test contributes
its `compile_args` (or `none` when the attribute is absent); the
class-level cache persists across tests.  Returns every test's binary,
the final cache, and all compile invocations in order. -/
def BaseTest.compileAll (targetCompile : CompileArgs → String) :
    List (Option CompileArgs) → List (CompileArgs × String) →
    List (Option String) × List (CompileArgs × String) × List CompileArgs
  | [], compiled => ([], compiled, [])
  | ca :: rest, compiled =>
    let one := BaseTest.compileOne targetCompile ca compiled
    let further := BaseTest.compileAll targetCompile rest one.2.1
    (one.1 :: further.1, further.2.1, one.2.2 ++ further.2.2)

/-- The binary a test should end up with, per the code: the compiled
output for its (truthy) `compile_args`, and `None` otherwise. -/
def expectedBinary (targetCompile : CompileArgs → String) :
    Option CompileArgs → Option String
  | some (a :: as) => some (targetCompile (a :: as))
  | _ => none

/-- Invariant of the `BaseTest.compiled` cache: every entry's value is
the compiler's output for its key, and no key is falsy. -/
def CacheInv (targetCompile : CompileArgs → String)
    (m : List (CompileArgs × String)) : Prop :=
  ∀ kv ∈ m, kv.2 = targetCompile kv.1 ∧ kv.1 ≠ []

theorem compiledGet_append_self (m : List (CompileArgs × String)) (k : CompileArgs)
    (v : String) (h : compiledGet m k = none) :
    compiledGet (m ++ [(k, v)]) k = some v := by
  induction m with
  | nil => simp [compiledGet]
  | cons kv rest ih =>
    rw [compiledGet] at h
    by_cases hk : kv.1 = k
    · rw [if_pos hk] at h
      exact Option.noConfusion h
    · rw [if_neg hk] at h
      rw [List.cons_append, compiledGet, if_neg hk]
      exact ih h

theorem compiledGet_append_ne_none (m : List (CompileArgs × String))
    (x : CompileArgs × String) (a : CompileArgs) (h : compiledGet m a ≠ none) :
    compiledGet (m ++ [x]) a ≠ none := by
  induction m with
  | nil => simp [compiledGet] at h
  | cons kv rest ih =>
    rw [compiledGet] at h
    rw [List.cons_append, compiledGet]
    by_cases hk : kv.1 = a
    · rw [if_pos hk]
      simp
    · rw [if_neg hk] at h ⊢
      exact ih h

theorem compiledGet_mem (m : List (CompileArgs × String)) (k : CompileArgs) (v : String)
    (h : compiledGet m k = some v) : (k, v) ∈ m := by
  induction m with
  | nil => simp [compiledGet] at h
  | cons kv rest ih =>
    rw [compiledGet] at h
    by_cases hk : kv.1 = k
    · rw [if_pos hk] at h
      injection h with hv
      have : kv = (k, v) := by
        obtain ⟨k1, v1⟩ := kv
        simp only at hk hv
        rw [hk, hv]
      rw [← this]
      exact List.mem_cons_self _ _
    · rw [if_neg hk] at h
      exact List.mem_cons_of_mem _ (ih h)

theorem compileOne_binary (targetCompile : CompileArgs → String)
    (ca : Option CompileArgs) (m : List (CompileArgs × String))
    (hinv : CacheInv targetCompile m) :
    (BaseTest.compileOne targetCompile ca m).1 = expectedBinary targetCompile ca ∧
    CacheInv targetCompile (BaseTest.compileOne targetCompile ca m).2.1 ∧
    (∀ a ∈ (BaseTest.compileOne targetCompile ca m).2.2, compiledGet m a = none) ∧
    (∀ a ∈ (BaseTest.compileOne targetCompile ca m).2.2,
      compiledGet (BaseTest.compileOne targetCompile ca m).2.1 a ≠ none) ∧
    (∀ a, compiledGet m a ≠ none →
      compiledGet (BaseTest.compileOne targetCompile ca m).2.1 a ≠ none) := by
  match ca with
  | none =>
    refine ⟨rfl, hinv, by simp [BaseTest.compileOne, truthyArgs], ?_, ?_⟩
    · simp [BaseTest.compileOne, truthyArgs]
    · intro a h
      exact h
  | some [] =>
    refine ⟨?_, hinv, by simp [BaseTest.compileOne, truthyArgs], ?_, ?_⟩
    · simp only [BaseTest.compileOne, truthyArgs, expectedBinary]
      cases hg : compiledGet m [] with
      | none => rfl
      | some v =>
        exfalso
        exact (hinv _ (compiledGet_mem m [] v hg)).2 rfl
    · simp [BaseTest.compileOne, truthyArgs]
    · intro a h
      exact h
  | some (a0 :: as) =>
    cases hg : compiledGet m (a0 :: as) with
    | none =>
      refine ⟨?_, ?_, ?_, ?_, ?_⟩
      · simp only [BaseTest.compileOne, truthyArgs, expectedBinary, hg]
        exact compiledGet_append_self m _ _ hg
      · intro kv hkv
        simp only [BaseTest.compileOne, truthyArgs, hg] at hkv
        rcases List.mem_append.mp hkv with h | h
        · exact hinv kv h
        · simp only [List.mem_singleton] at h
          rw [h]
          exact ⟨rfl, by simp⟩
      · intro a ha
        simp only [BaseTest.compileOne, truthyArgs, hg, List.mem_singleton] at ha
        rw [ha, hg]
      · intro a ha
        simp only [BaseTest.compileOne, truthyArgs, hg, List.mem_singleton] at ha ⊢
        rw [ha, compiledGet_append_self m _ _ hg]
        simp
      · intro a h
        simp only [BaseTest.compileOne, truthyArgs, hg]
        exact compiledGet_append_ne_none m _ a h
    | some v =>
      have hv : v = targetCompile (a0 :: as) :=
        (hinv _ (compiledGet_mem m _ v hg)).1
      refine ⟨?_, ?_, ?_, ?_, ?_⟩
      · simp only [BaseTest.compileOne, truthyArgs, expectedBinary, hg]
        rw [hv]
      · simpa only [BaseTest.compileOne, truthyArgs, hg] using hinv
      · simp [BaseTest.compileOne, truthyArgs, hg]
      · simp [BaseTest.compileOne, truthyArgs, hg]
      · intro a h
        simpa only [BaseTest.compileOne, truthyArgs, hg] using h

theorem compileOne_invs_nodup (targetCompile : CompileArgs → String)
    (ca : Option CompileArgs) (m : List (CompileArgs × String)) :
    ((BaseTest.compileOne targetCompile ca m).2.2).Nodup := by
  match ca with
  | none => simp [BaseTest.compileOne, truthyArgs]
  | some [] => simp [BaseTest.compileOne, truthyArgs]
  | some (a :: as) =>
    cases hg : compiledGet m (a :: as) <;>
      simp [BaseTest.compileOne, truthyArgs, hg]

theorem compileAll_spec (targetCompile : CompileArgs → String)
    (tests : List (Option CompileArgs)) (m : List (CompileArgs × String))
    (hinv : CacheInv targetCompile m) :
    (BaseTest.compileAll targetCompile tests m).1 =
      tests.map (expectedBinary targetCompile) ∧
    ((BaseTest.compileAll targetCompile tests m).2.2).Nodup ∧
    (∀ a ∈ (BaseTest.compileAll targetCompile tests m).2.2, compiledGet m a = none) := by
  induction tests generalizing m with
  | nil => exact ⟨rfl, List.nodup_nil, by simp [BaseTest.compileAll]⟩
  | cons ca rest ih =>
    obtain ⟨hbin, hinv2, hfresh, hnotnone, hmono⟩ := compileOne_binary targetCompile ca m hinv
    obtain ⟨ihbin, ihnodup, ihfresh⟩ := ih _ hinv2
    refine ⟨?_, ?_, ?_⟩
    · simp only [BaseTest.compileAll, List.map_cons]
      rw [hbin, ihbin]
    · simp only [BaseTest.compileAll]
      rw [List.nodup_append]
      refine ⟨compileOne_invs_nodup targetCompile ca m, ihnodup, ?_⟩
      intro a ha hb
      exact hnotnone a ha (ihfresh a hb)
    · intro a ha
      simp only [BaseTest.compileAll, List.mem_append] at ha
      rcases ha with ha | ha
      · exact hfresh a ha
      · by_contra hc
        exact (hmono a hc) (ihfresh a ha)

/-- Claim C10: within one run of the suite, compilation is cached in the
class-level `BaseTest.compiled` dict by `compile_args` tuple —
`target.compile` is invoked at most once per tuple (the invocation list
has no duplicates), every test with a given truthy tuple receives the
identical cached binary (`expectedBinary`, the compiler's output for that
tuple), a test with equal `compile_args` at another position receives the
same binary, and a test without (or with empty) `compile_args` gets no
binary. -/
theorem claim_C10_compile_cache (tests : List (Option CompileArgs))
    (targetCompile : CompileArgs → String) :
    (BaseTest.compileAll targetCompile tests []).1 =
      tests.map (expectedBinary targetCompile) ∧
    ((BaseTest.compileAll targetCompile tests []).2.2).Nodup ∧
    (∀ t, @List.count CompileArgs instBEqOfDecidableEq t
      ((BaseTest.compileAll targetCompile tests []).2.2) ≤ 1) ∧
    (∀ i j : Nat, tests[i]? = tests[j]? →
      ((BaseTest.compileAll targetCompile tests []).1)[i]? =
        ((BaseTest.compileAll targetCompile tests []).1)[j]?) := by
  have h := compileAll_spec targetCompile tests [] (by intro kv hkv; simp at hkv)
  refine ⟨h.1, h.2.1, ?_, ?_⟩
  · exact fun t => List.nodup_iff_count_le_one.mp h.2.1 t
  · intro i j hij
    rw [h.1, List.getElem?_map, List.getElem?_map, hij]
